import Mathlib

/-!
Verification of the XLSXtract extraction pipeline (src/XLSXtract.py).

The development shallowly embeds the extraction-normalization-filter-dedup
pipeline of `XLSXtract.py`: the per-candidate filter loop of
`extract_text_from_xlsx` (lines 110-126), the cell loop (lines 92-129), the
tokenizer built from `re.split` on a character class (lines 102-108), the
complexity predicate `is_complex_password` (lines 38-45), the per-file wrapper
`process_xlsx_file` (lines 141-155) and the aggregation and output logic of
`main` (lines 174-214).

Python's Unicode character classification (`str.isprintable`, `str.isspace`,
the regex class matched by the backslash-d escape) is external library
behaviour; it is modelled by an abstract `CharClass` oracle over which all
theorems are universally quantified.  Cell values are modelled after
stringification (`str(cell.value)`), i.e. as the `String` the loop body
actually manipulates; an empty cell is `none`.
-/

set_option maxHeartbeats 1000000

namespace XLSXtract

/-- Oracle for the character classes the source obtains from the Python
runtime: `printable c` models `c.isprintable()`, `space c` models
`c.isspace()` (also used by `str.strip()`), and `digit c` models the regex
escape for a decimal digit used in `is_complex_password`. -/
structure CharClass where
  printable : Char → Bool
  space : Char → Bool
  digit : Char → Bool

/-- Python `str.strip()` on the character list of a string: drop the maximal
run of space characters at each end. -/
def pyStripList (sp : Char → Bool) (l : List Char) : List Char :=
  ((l.dropWhile sp).reverse.dropWhile sp).reverse

/-- Python `str.strip()`; used at line 97 (`str(cell.value).strip()`) and
line 111 (`word.strip()`) of XLSXtract.py. -/
def pyStrip (cc : CharClass) (s : String) : String :=
  (pyStripList cc.space s.data).asString

/-- Line 117 of XLSXtract.py: keep exactly the characters that are printable
and not whitespace (the generator expression joined by `''.join`). -/
def pyClean (cc : CharClass) (s : String) : String :=
  (s.data.filter (fun c => cc.printable c && !cc.space c)).asString

/-- The fixed special-character set of the regex at line 44 of XLSXtract.py
(`!@#$%^&*()_+-=[]` followed by the two braces, `|;:,.<>?/~` and the
backtick; codes 123, 125 and 96 written numerically). -/
def specialChars : List Char :=
  ['!', '@', '#', '$', '%', '^', '&', '*', '(', ')', '_', '+', '-', '=',
   '[', ']', Char.ofNat 123, Char.ofNat 125, '|', ';', ':', ',', '.',
   '<', '>', '?', '/', '~', Char.ofNat 96]

/-- Lines 38-45 of XLSXtract.py: `is_complex_password`.  Each `re.search`
over a one-character class is "some character of the word is in the class";
the uppercase and lowercase classes are the literal ASCII ranges of the
pattern, the digit class is the oracle's `digit`, the special class is
`specialChars`. -/
def is_complex_password (cc : CharClass) (word : String) : Bool :=
  let has_upper := word.data.any (fun c => decide ('A' ≤ c ∧ c ≤ 'Z'))
  let has_lower := word.data.any (fun c => decide ('a' ≤ c ∧ c ≤ 'z'))
  let has_digit := word.data.any cc.digit
  let has_special := word.data.any (fun c => decide (c ∈ specialChars))
  has_upper && has_lower && has_digit && has_special

/-- Engine of `re.split("[" + re.escape(split_chars) + "]+", text)` (lines
105-106 of XLSXtract.py): scan the characters left to right accumulating the
current segment in reverse in `acc`; on a delimiter, emit the segment and
enter `skipping` mode so that the rest of the maximal delimiter run emits
nothing; at the end emit the pending segment (which is the empty segment when
the text ended in a delimiter run or was empty).  This reproduces
`re.split`'s output including the empty strings it produces before a leading
delimiter run and after a trailing one. -/
def splitAux (isDelim : Char → Bool) : List Char → List Char → Bool → List (List Char)
  | [], acc, _ => [acc.reverse]
  | c :: rest, acc, skipping =>
    if isDelim c then
      if skipping then splitAux isDelim rest [] true
      else acc.reverse :: splitAux isDelim rest [] true
    else splitAux isDelim rest (c :: acc) false

/-- `re.split` on a one-or-more character class, at the `String` level. -/
def reSplit (isDelim : Char → Bool) (s : String) : List String :=
  (splitAux isDelim s.data [] false).map List.asString

/-- Lines 102-108 of XLSXtract.py: with a nonempty `split_chars` the cell
text is split by `re.split` on one-or-more of the split characters, otherwise
the whole text is the single candidate. -/
def tokenize (splitChars : List Char) (text : String) : List String :=
  if splitChars.isEmpty then [text]
  else reSplit (fun c => splitChars.contains c) text

/-- The per-file mutable state of `extract_text_from_xlsx` (lines 85-87 of
XLSXtract.py): `text_values`, `word_count`, `skipped_words`. -/
structure FileState where
  text_values : Finset String
  word_count : Nat
  skipped_words : Nat
deriving DecidableEq

/-- Initial per-file state (`set()`, `0`, `0`). -/
def initFileState : FileState := ⟨∅, 0, 0⟩

/-- Lines 110-126 of XLSXtract.py, the body of `for word in words_to_process`:
strip the candidate; skip (counting) when it is empty or longer than
`max_length`; clean it; skip (counting) when complexity checking is on and
the cleaned word is not complex; insert it and bump `word_count` when it is
nonempty and new; otherwise leave the state unchanged. -/
def processWord (cc : CharClass) (maxLength : Nat) (check_complexity : Bool)
    (st : FileState) (w : String) : FileState :=
  let word := pyStrip cc w
  if word = "" ∨ word.length > maxLength then
    { st with skipped_words := st.skipped_words + 1 }
  else
    let word := pyClean cc word
    if check_complexity = true ∧ is_complex_password cc word = false then
      { st with skipped_words := st.skipped_words + 1 }
    else if word ≠ "" ∧ word ∉ st.text_values then
      { st with text_values := insert word st.text_values,
                word_count := st.word_count + 1 }
    else st

/-- Lines 95-110 of XLSXtract.py for one cell: a `none` value (`cell.value is
None`) contributes nothing; otherwise the stringified value is stripped,
an empty result is skipped (`continue`), and the tokenizer's candidates are
folded through `processWord`. -/
def processCell (cc : CharClass) (splitChars : List Char) (maxLength : Nat)
    (check_complexity : Bool) (st : FileState) (v : Option String) : FileState :=
  match v with
  | none => st
  | some raw =>
    let text := pyStrip cc raw
    if text = "" then st
    else (tokenize splitChars text).foldl (processWord cc maxLength check_complexity) st

/-- A discovered spreadsheet file as the extractor sees it: either it opens
and yields its cell values in document order (already stringified, `none` for
an empty cell), or `load_workbook` / iteration raises and the file is
unreadable. -/
inductive XlsxFile where
  | ok (cells : List (Option String))
  | unreadable
deriving DecidableEq

/-- Lines 83-139 of XLSXtract.py, `extract_text_from_xlsx`: fold every cell
value through `processCell`; on any exception return `(set(), 0, 0)`
(lines 137-139). -/
def extract_text_from_xlsx (cc : CharClass) (splitChars : List Char)
    (maxLength : Nat) (check_complexity : Bool) : XlsxFile → FileState
  | .ok cells =>
    cells.foldl (processCell cc splitChars maxLength check_complexity) initFileState
  | .unreadable => initFileState

/-- Lines 141-155 of XLSXtract.py, `process_xlsx_file`: run the extractor and
return only `(text_values, skipped_words)` — the per-file `word_count` is
printed but not returned. -/
def process_xlsx_file (cc : CharClass) (splitChars : List Char) (maxLength : Nat)
    (check_complexity : Bool) (f : XlsxFile) : Finset String × Nat :=
  let r := extract_text_from_xlsx cc splitChars maxLength check_complexity f
  (r.text_values, r.skipped_words)

/-- The accumulator of `main` (lines 175-178 of XLSXtract.py):
`all_words`, `total_files`, `total_words`, `total_skipped`. -/
structure RunState where
  all_words : Finset String
  total_files : Nat
  total_words : Nat
  total_skipped : Nat
deriving DecidableEq

/-- Initial accumulator of `main` (`set()` and three zeroes). -/
def initRunState : RunState := ⟨∅, 0, 0, 0⟩

/-- Lines 203-208 of XLSXtract.py, the body of `for xlsx_path in xlsx_files`:
union the file's words into `all_words`, bump `total_files`, add the number
of the file's words to `total_words`, add its skips to `total_skipped`. -/
def mainStep (cc : CharClass) (splitChars : List Char) (maxLength : Nat)
    (check_complexity : Bool) (rs : RunState) (f : XlsxFile) : RunState :=
  let p := process_xlsx_file cc splitChars maxLength check_complexity f
  { all_words := rs.all_words ∪ p.1
    total_files := rs.total_files + 1
    total_words := rs.total_words + p.1.card
    total_skipped := rs.total_skipped + p.2 }

/-- The whole file loop of `main` over the discovered files. -/
def mainFold (cc : CharClass) (splitChars : List Char) (maxLength : Nat)
    (check_complexity : Bool) (files : List XlsxFile) : RunState :=
  files.foldl (mainStep cc splitChars maxLength check_complexity) initRunState

/-- Lines 193-198 and 210-214 of XLSXtract.py: when discovery yielded no
files `main` returns before the write (`none`); otherwise the lines written
to the output file are `sorted(all_words)`, one word per line. -/
def mainOutput (cc : CharClass) (splitChars : List Char) (maxLength : Nat)
    (check_complexity : Bool) (files : List XlsxFile) : Option (List String) :=
  if files.isEmpty then none
  else some ((mainFold cc splitChars maxLength check_complexity files).all_words.sort (· ≤ ·))

/-- Effect of one run on the output path: `prev` is the pre-existing content
of the output file (`none` when absent); a run that writes replaces it, a
run that returns early leaves it untouched. -/
def runFS (cc : CharClass) (splitChars : List Char) (maxLength : Nat)
    (check_complexity : Bool) (files : List XlsxFile)
    (prev : Option (List String)) : Option (List String) :=
  match mainOutput cc splitChars maxLength check_complexity files with
  | none => prev
  | some out => some out

/-- Union of the per-file unique-token sets of a run, in file order. -/
def runUnion (cc : CharClass) (splitChars : List Char) (maxLength : Nat)
    (check_complexity : Bool) : List XlsxFile → Finset String
  | [] => ∅
  | f :: rest =>
    (extract_text_from_xlsx cc splitChars maxLength check_complexity f).text_values ∪
      runUnion cc splitChars maxLength check_complexity rest

/-- Sum over the files of the cardinality of the per-file token set (what
`main` adds to `total_words` at line 207). -/
def runFound (cc : CharClass) (splitChars : List Char) (maxLength : Nat)
    (check_complexity : Bool) : List XlsxFile → Nat
  | [] => 0
  | f :: rest =>
    (extract_text_from_xlsx cc splitChars maxLength check_complexity f).text_values.card +
      runFound cc splitChars maxLength check_complexity rest

/-- Sum over the files of the per-file `skipped_words`. -/
def runSkips (cc : CharClass) (splitChars : List Char) (maxLength : Nat)
    (check_complexity : Bool) : List XlsxFile → Nat
  | [] => 0
  | f :: rest =>
    (extract_text_from_xlsx cc splitChars maxLength check_complexity f).skipped_words +
      runSkips cc splitChars maxLength check_complexity rest

/-- Concrete instantiation of the character-class oracle, agreeing with
Python on the ASCII range: printable is the visible ASCII range plus the
space character, space is ASCII whitespace, digit is an ASCII digit.  Used
to evaluate the pipeline on concrete inputs. -/
def asciiCC : CharClass where
  printable := fun c => decide (32 ≤ c.toNat ∧ c.toNat ≤ 126)
  space := fun c =>
    c == ' ' || c == '\t' || c == '\n' || c == '\r' ||
      c == Char.ofNat 11 || c == Char.ofNat 12
  digit := fun c => c.isDigit

/-- The Token invariant of the specification, for a given oracle and length
bound: nonempty, within the bound, and every character printable and not
whitespace. -/
def goodToken (cc : CharClass) (maxLength : Nat) (w : String) : Prop :=
  1 ≤ w.length ∧ w.length ≤ maxLength ∧
    ∀ c ∈ w.data, cc.printable c = true ∧ cc.space c = false

/-- The empty string is never complex: it has no uppercase letter. -/
theorem is_complex_password_empty (cc : CharClass) :
    is_complex_password cc "" = false := rfl

/-- C2: in the filter loop the length test at line 112 is applied to the
stripped candidate before the cleaning of line 117, and a too-long candidate
is skipped with `skipped_words` incremented and the token set unchanged. -/
theorem c2_length_before_cleaning (cc : CharClass) (maxLength : Nat)
    (check_complexity : Bool) (st : FileState) (w : String)
    (h : (pyStrip cc w).length > maxLength) :
    processWord cc maxLength check_complexity st w =
      { st with skipped_words := st.skipped_words + 1 } ∧
    (processWord cc maxLength check_complexity st w).text_values = st.text_values := by
  have hmain : processWord cc maxLength check_complexity st w =
      { st with skipped_words := st.skipped_words + 1 } := by
    unfold processWord
    rw [if_pos (Or.inr h)]
  exact ⟨hmain, by rw [hmain]⟩

/-- Witness for `c2_length_before_cleaning`: with `max_length = 3` the
candidate `"a b c"` has stripped length `5 > 3` (its cleaned form `"abc"`
would have length `3 ≤ 3`) and is skipped. -/
theorem c2_length_before_cleaning_witness :
    (pyClean asciiCC (pyStrip asciiCC "a b c")).length ≤ 3 ∧
    (processWord asciiCC 3 false initFileState "a b c" =
      { initFileState with skipped_words := initFileState.skipped_words + 1 } ∧
    (processWord asciiCC 3 false initFileState "a b c").text_values =
      initFileState.text_values) :=
  ⟨by decide, c2_length_before_cleaning asciiCC 3 false initFileState "a b c" (by decide)⟩

/-- C4 counterexample: the one-character candidate consisting of the control
character `\x01` passes the emptiness and length checks (it strips to itself,
length `1 ≤ 32`) and becomes empty after cleaning, yet with the complexity
rule disabled the filter leaves the state unchanged — `skipped_words` is not
incremented, contradicting the claim that such a candidate is counted as
skipped regardless of the complexity flag. -/
theorem c4_counterexample :
    pyStrip asciiCC "\x01" = "\x01" ∧
    (pyStrip asciiCC "\x01").length ≤ 32 ∧
    pyClean asciiCC (pyStrip asciiCC "\x01") = "" ∧
    processWord asciiCC 32 false initFileState "\x01" = initFileState := by
  refine ⟨by decide, by decide, by decide, by decide⟩

/-- C4 amended: a candidate that passes the emptiness and length checks but
cleans to the empty string is skipped (with `skipped_words` incremented) when
the complexity rule is enabled, because the empty token fails the complexity
check; when the rule is disabled it is dropped silently, leaving the token
set and both counters unchanged. -/
theorem c4_empty_after_cleaning (cc : CharClass) (maxLength : Nat)
    (st : FileState) (w : String)
    (h1 : pyStrip cc w ≠ "") (h2 : (pyStrip cc w).length ≤ maxLength)
    (h3 : pyClean cc (pyStrip cc w) = "") :
    processWord cc maxLength true st w =
      { st with skipped_words := st.skipped_words + 1 } ∧
    processWord cc maxLength false st w = st := by
  have hcond : ¬ (pyStrip cc w = "" ∨ (pyStrip cc w).length > maxLength) :=
    not_or.mpr ⟨h1, not_lt.mpr h2⟩
  constructor
  · unfold processWord
    rw [if_neg hcond, if_pos ⟨rfl, by rw [h3]; exact is_complex_password_empty cc⟩]
  · unfold processWord
    rw [if_neg hcond, if_neg (by simp), if_neg (by rw [h3]; simp)]

/-- Witness for `c4_empty_after_cleaning` at the control character input. -/
theorem c4_empty_after_cleaning_witness :
    processWord asciiCC 32 true initFileState "\x01" =
      { initFileState with skipped_words := initFileState.skipped_words + 1 } ∧
    processWord asciiCC 32 false initFileState "\x01" = initFileState :=
  c4_empty_after_cleaning asciiCC 32 initFileState "\x01"
    (by decide) (by decide) (by decide)

/-- C9: when discovery yields zero files, `main` returns at lines 193-198
before the write at lines 212-214: no output is produced and a pre-existing
file at the output path keeps its previous content. -/
theorem c9_no_files_no_write (cc : CharClass) (splitChars : List Char)
    (maxLength : Nat) (check_complexity : Bool) (files : List XlsxFile)
    (prev : Option (List String)) (h : files = []) :
    mainOutput cc splitChars maxLength check_complexity files = none ∧
    runFS cc splitChars maxLength check_complexity files prev = prev := by
  subst h
  exact ⟨rfl, rfl⟩

/-- Witness for `c9_no_files_no_write` with a pre-existing output file. -/
theorem c9_no_files_no_write_witness :
    mainOutput asciiCC [] 32 false [] = none ∧
    runFS asciiCC [] 32 false [] (some ["old"]) = some ["old"] :=
  c9_no_files_no_write asciiCC [] 32 false [] (some ["old"]) rfl

/-- Folding preserves any invariant preserved by each step. -/
theorem foldl_inv {α β : Type} (P : α → Prop) (f : α → β → α) :
    ∀ (l : List β) (a : α), P a → (∀ a b, P a → P (f a b)) → P (l.foldl f a)
  | [], _, h, _ => h
  | b :: t, a, h, hs => foldl_inv P f t (f a b) (hs a b h) hs

/-- A nonempty string has positive length. -/
theorem one_le_length_of_ne_empty (w : String) (h : w ≠ "") : 1 ≤ w.length := by
  cases w with
  | mk data =>
    cases data with
    | nil => exact absurd rfl h
    | cons c t => exact Nat.le_add_left 1 t.length

/-- Cleaning only removes characters, so it cannot lengthen a string. -/
theorem pyClean_length_le (cc : CharClass) (s : String) :
    (pyClean cc s).length ≤ s.length :=
  List.length_filter_le _ s.data

/-- Every character surviving the cleaning of line 117 is printable and not
whitespace. -/
theorem pyClean_chars (cc : CharClass) (s : String) :
    ∀ c ∈ (pyClean cc s).data, cc.printable c = true ∧ cc.space c = false := by
  intro c hc
  have h2 := (List.mem_filter.mp hc).2
  simpa [Bool.and_eq_true, Bool.not_eq_true'] using h2

/-- Case analysis on one iteration of the filter loop: either a skip, a
no-op, or the first insertion of the cleaned token. -/
theorem processWord_cases (cc : CharClass) (maxLength : Nat) (check_complexity : Bool)
    (st : FileState) (w : String) :
    processWord cc maxLength check_complexity st w =
        { st with skipped_words := st.skipped_words + 1 } ∨
    processWord cc maxLength check_complexity st w = st ∨
    ((pyStrip cc w).length ≤ maxLength ∧
      pyClean cc (pyStrip cc w) ≠ "" ∧
      pyClean cc (pyStrip cc w) ∉ st.text_values ∧
      processWord cc maxLength check_complexity st w =
        { st with
            text_values := insert (pyClean cc (pyStrip cc w)) st.text_values,
            word_count := st.word_count + 1 }) := by
  unfold processWord
  by_cases h1 : pyStrip cc w = "" ∨ (pyStrip cc w).length > maxLength
  · rw [if_pos h1]; exact Or.inl rfl
  · rw [if_neg h1]
    by_cases h2 : check_complexity = true ∧
        is_complex_password cc (pyClean cc (pyStrip cc w)) = false
    · rw [if_pos h2]; exact Or.inl rfl
    · rw [if_neg h2]
      by_cases h3 : pyClean cc (pyStrip cc w) ≠ "" ∧
          pyClean cc (pyStrip cc w) ∉ st.text_values
      · rw [if_pos h3]
        exact Or.inr (Or.inr ⟨not_lt.mp (not_or.mp h1).2, h3.1, h3.2, rfl⟩)
      · rw [if_neg h3]; exact Or.inr (Or.inl rfl)

/-- One filter iteration preserves `word_count = |text_values|`. -/
theorem processWord_count_inv (cc : CharClass) (maxLength : Nat)
    (check_complexity : Bool) (st : FileState) (w : String)
    (h : st.word_count = st.text_values.card) :
    (processWord cc maxLength check_complexity st w).word_count =
      (processWord cc maxLength check_complexity st w).text_values.card := by
  rcases processWord_cases cc maxLength check_complexity st w with
    he | he | ⟨_, _, hnm, he⟩ <;> rw [he]
  · exact h
  · exact h
  · show st.word_count + 1 = (insert (pyClean cc (pyStrip cc w)) st.text_values).card
    rw [Finset.card_insert_of_not_mem hnm, h]

/-- One filter iteration preserves "every stored token is a good token". -/
theorem processWord_good_inv (cc : CharClass) (maxLength : Nat)
    (check_complexity : Bool) (st : FileState) (w : String)
    (h : ∀ v ∈ st.text_values, goodToken cc maxLength v) :
    ∀ v ∈ (processWord cc maxLength check_complexity st w).text_values,
      goodToken cc maxLength v := by
  rcases processWord_cases cc maxLength check_complexity st w with
    he | he | ⟨hlen, hne, _, he⟩ <;> rw [he]
  · exact h
  · exact h
  · intro v hv
    rcases Finset.mem_insert.mp hv with rfl | hv'
    · exact ⟨one_le_length_of_ne_empty _ hne,
        le_trans (pyClean_length_le cc _) hlen, pyClean_chars cc _⟩
    · exact h v hv'

/-- A state invariant preserved by `processWord` is preserved by processing
one cell. -/
theorem processCell_inv (cc : CharClass) (splitChars : List Char) (maxLength : Nat)
    (check_complexity : Bool) (P : FileState → Prop)
    (hP : ∀ st w, P st → P (processWord cc maxLength check_complexity st w))
    (st : FileState) (v : Option String) (h : P st) :
    P (processCell cc splitChars maxLength check_complexity st v) := by
  cases v with
  | none => exact h
  | some raw =>
    show P (if pyStrip cc raw = "" then st
      else (tokenize splitChars (pyStrip cc raw)).foldl
        (processWord cc maxLength check_complexity) st)
    by_cases ht : pyStrip cc raw = ""
    · rw [if_pos ht]; exact h
    · rw [if_neg ht]
      exact foldl_inv P _ _ st h hP

/-- A state invariant holding initially and preserved by `processWord` holds
for the result of the extractor on any file. -/
theorem extract_inv (cc : CharClass) (splitChars : List Char) (maxLength : Nat)
    (check_complexity : Bool) (P : FileState → Prop) (h0 : P initFileState)
    (hP : ∀ st w, P st → P (processWord cc maxLength check_complexity st w))
    (f : XlsxFile) :
    P (extract_text_from_xlsx cc splitChars maxLength check_complexity f) := by
  cases f with
  | unreadable => exact h0
  | ok cells =>
    exact foldl_inv P _ cells initFileState h0
      (fun a b ha => processCell_inv cc splitChars maxLength check_complexity P hP a b ha)

/-- For every file the returned `word_count` equals the size of the returned
token set. -/
theorem extract_word_count_card (cc : CharClass) (splitChars : List Char)
    (maxLength : Nat) (check_complexity : Bool) (f : XlsxFile) :
    (extract_text_from_xlsx cc splitChars maxLength check_complexity f).word_count =
      (extract_text_from_xlsx cc splitChars maxLength check_complexity f).text_values.card :=
  extract_inv cc splitChars maxLength check_complexity
    (fun st => st.word_count = st.text_values.card) rfl
    (fun st w h => processWord_count_inv cc maxLength check_complexity st w h) f

/-- C5: every token stored in a file's unique-token set is nonempty, within
the length bound, and free of whitespace and non-printable characters. -/
theorem c5_token_invariant (cc : CharClass) (splitChars : List Char)
    (maxLength : Nat) (check_complexity : Bool) (f : XlsxFile) (w : String)
    (hw : w ∈ (extract_text_from_xlsx cc splitChars maxLength check_complexity f).text_values) :
    goodToken cc maxLength w :=
  extract_inv cc splitChars maxLength check_complexity
    (fun st => ∀ v ∈ st.text_values, goodToken cc maxLength v)
    (fun v hv => absurd hv (Finset.not_mem_empty v))
    (fun st w' h => processWord_good_inv cc maxLength check_complexity st w' h) f w hw

/-- Witness for `c5_token_invariant` on a one-cell file. -/
theorem c5_token_invariant_witness :
    "Abc1!" ∈ (extract_text_from_xlsx asciiCC [] 32 false
        (XlsxFile.ok [some "Abc1!"])).text_values ∧
    goodToken asciiCC 32 "Abc1!" :=
  ⟨by decide, c5_token_invariant asciiCC [] 32 false
      (XlsxFile.ok [some "Abc1!"]) "Abc1!" (by decide)⟩

/-- C7: an accepted token that is already in the file's set changes nothing
(no count moves, the set is unchanged), and consequently for every file the
`word_count` equals the number of distinct tokens extracted from it. -/
theorem c7_found_counts_first_insertion_only (cc : CharClass) (splitChars : List Char)
    (maxLength : Nat) (check_complexity : Bool) (st : FileState) (w : String)
    (f : XlsxFile)
    (h1 : pyStrip cc w ≠ "") (h2 : (pyStrip cc w).length ≤ maxLength)
    (hc : check_complexity = true →
      is_complex_password cc (pyClean cc (pyStrip cc w)) = true)
    (hmem : pyClean cc (pyStrip cc w) ∈ st.text_values) :
    processWord cc maxLength check_complexity st w = st ∧
    (extract_text_from_xlsx cc splitChars maxLength check_complexity f).word_count =
      (extract_text_from_xlsx cc splitChars maxLength check_complexity f).text_values.card := by
  constructor
  · unfold processWord
    rw [if_neg (not_or.mpr ⟨h1, not_lt.mpr h2⟩)]
    rw [if_neg (fun hand => by rw [hc hand.1] at hand; exact absurd hand.2 (by simp))]
    rw [if_neg (fun hand => hand.2 hmem)]
  · exact extract_word_count_card cc splitChars maxLength check_complexity f

/-- Witness for `c7_found_counts_first_insertion_only`: the token `"Abc1"` is
already stored, so reprocessing it changes nothing. -/
theorem c7_found_counts_first_insertion_only_witness :
    processWord asciiCC 32 false
        ⟨{"Abc1"}, 1, 0⟩ "Abc1" = ⟨{"Abc1"}, 1, 0⟩ ∧
    (extract_text_from_xlsx asciiCC [] 32 false
        (XlsxFile.ok [some "Abc1", some "Abc1"])).word_count =
      (extract_text_from_xlsx asciiCC [] 32 false
        (XlsxFile.ok [some "Abc1", some "Abc1"])).text_values.card :=
  c7_found_counts_first_insertion_only asciiCC [] 32 false
    ⟨{"Abc1"}, 1, 0⟩ "Abc1" (XlsxFile.ok [some "Abc1", some "Abc1"])
    (by decide) (by decide) (by decide) (by decide)

/-- Closed form of the file loop of `main` started from any accumulator. -/
theorem mainFold_from (cc : CharClass) (splitChars : List Char) (maxLength : Nat)
    (check_complexity : Bool) :
    ∀ (files : List XlsxFile) (rs : RunState),
      files.foldl (mainStep cc splitChars maxLength check_complexity) rs =
        ⟨rs.all_words ∪ runUnion cc splitChars maxLength check_complexity files,
         rs.total_files + files.length,
         rs.total_words + runFound cc splitChars maxLength check_complexity files,
         rs.total_skipped + runSkips cc splitChars maxLength check_complexity files⟩
  | [], rs => by
    simp only [List.foldl_nil, runUnion, runFound, runSkips, Finset.union_empty,
      List.length_nil, Nat.add_zero]
  | f :: t, rs => by
    rw [List.foldl_cons,
      mainFold_from cc splitChars maxLength check_complexity t
        (mainStep cc splitChars maxLength check_complexity rs f)]
    simp only [mainStep, process_xlsx_file, runUnion, runFound, runSkips,
      List.length_cons, RunState.mk.injEq]
    exact ⟨Finset.union_assoc _ _ _, by omega, by omega, by omega⟩

/-- Closed form of the file loop of `main` from the initial accumulator. -/
theorem mainFold_spec (cc : CharClass) (splitChars : List Char) (maxLength : Nat)
    (check_complexity : Bool) (files : List XlsxFile) :
    mainFold cc splitChars maxLength check_complexity files =
      ⟨runUnion cc splitChars maxLength check_complexity files,
       files.length,
       runFound cc splitChars maxLength check_complexity files,
       runSkips cc splitChars maxLength check_complexity files⟩ := by
  unfold mainFold initRunState
  rw [mainFold_from]
  simp only [Finset.empty_union, Nat.zero_add]

/-- The per-file token-set union distributes over list append. -/
theorem runUnion_append (cc : CharClass) (splitChars : List Char) (maxLength : Nat)
    (check_complexity : Bool) :
    ∀ l1 l2 : List XlsxFile,
      runUnion cc splitChars maxLength check_complexity (l1 ++ l2) =
        runUnion cc splitChars maxLength check_complexity l1 ∪
          runUnion cc splitChars maxLength check_complexity l2
  | [], l2 => by simp only [List.nil_append, runUnion, Finset.empty_union]
  | f :: t, l2 => by
    simp only [List.cons_append, List.append_eq, runUnion,
      runUnion_append cc splitChars maxLength check_complexity t l2, Finset.union_assoc]

/-- The found-totals sum distributes over list append. -/
theorem runFound_append (cc : CharClass) (splitChars : List Char) (maxLength : Nat)
    (check_complexity : Bool) :
    ∀ l1 l2 : List XlsxFile,
      runFound cc splitChars maxLength check_complexity (l1 ++ l2) =
        runFound cc splitChars maxLength check_complexity l1 +
          runFound cc splitChars maxLength check_complexity l2
  | [], l2 => by simp only [List.nil_append, runFound, Nat.zero_add]
  | f :: t, l2 => by
    simp only [List.cons_append, List.append_eq, runFound,
      runFound_append cc splitChars maxLength check_complexity t l2, Nat.add_assoc]

/-- The skip-totals sum distributes over list append. -/
theorem runSkips_append (cc : CharClass) (splitChars : List Char) (maxLength : Nat)
    (check_complexity : Bool) :
    ∀ l1 l2 : List XlsxFile,
      runSkips cc splitChars maxLength check_complexity (l1 ++ l2) =
        runSkips cc splitChars maxLength check_complexity l1 +
          runSkips cc splitChars maxLength check_complexity l2
  | [], l2 => by simp only [List.nil_append, runSkips, Nat.zero_add]
  | f :: t, l2 => by
    simp only [List.cons_append, List.append_eq, runSkips,
      runSkips_append cc splitChars maxLength check_complexity t l2, Nat.add_assoc]

/-- C10: `word_count` always equals the cardinality of the returned token
set, and `main`'s `total_words`, although computed as the sum of per-file set
sizes after `process_xlsx_file` discarded the per-file count, is the sum of
the per-file `word_count`s. -/
theorem c10_total_words_eq_sum_found (cc : CharClass) (splitChars : List Char)
    (maxLength : Nat) (check_complexity : Bool) (files : List XlsxFile) :
    (∀ f : XlsxFile,
      (extract_text_from_xlsx cc splitChars maxLength check_complexity f).word_count =
        (extract_text_from_xlsx cc splitChars maxLength check_complexity f).text_values.card) ∧
    (mainFold cc splitChars maxLength check_complexity files).total_words =
      (files.map (fun f =>
        (extract_text_from_xlsx cc splitChars maxLength check_complexity f).word_count)).sum := by
  refine ⟨extract_word_count_card cc splitChars maxLength check_complexity, ?_⟩
  rw [mainFold_spec]
  show runFound cc splitChars maxLength check_complexity files = _
  induction files with
  | nil => rfl
  | cons f t ih =>
    simp only [runFound, List.map_cons, List.sum_cons, ih,
      extract_word_count_card cc splitChars maxLength check_complexity f]

/-- C8: an unreadable file yields the empty result `(∅, 0, 0)` and the run
continues: relative to the same run without it, `all_words`, `total_words`
and `total_skipped` are unchanged (the file contributes nothing), while
`total_files` — which `main` increments for every discovered file — is one
larger. -/
theorem c8_unreadable_file_nonfatal (cc : CharClass) (splitChars : List Char)
    (maxLength : Nat) (check_complexity : Bool) (pre post : List XlsxFile) :
    extract_text_from_xlsx cc splitChars maxLength check_complexity
        XlsxFile.unreadable = initFileState ∧
    (mainFold cc splitChars maxLength check_complexity
        (pre ++ XlsxFile.unreadable :: post)).all_words =
      (mainFold cc splitChars maxLength check_complexity (pre ++ post)).all_words ∧
    (mainFold cc splitChars maxLength check_complexity
        (pre ++ XlsxFile.unreadable :: post)).total_words =
      (mainFold cc splitChars maxLength check_complexity (pre ++ post)).total_words ∧
    (mainFold cc splitChars maxLength check_complexity
        (pre ++ XlsxFile.unreadable :: post)).total_skipped =
      (mainFold cc splitChars maxLength check_complexity (pre ++ post)).total_skipped ∧
    (mainFold cc splitChars maxLength check_complexity
        (pre ++ XlsxFile.unreadable :: post)).total_files =
      (mainFold cc splitChars maxLength check_complexity (pre ++ post)).total_files + 1 := by
  refine ⟨rfl, ?_, ?_, ?_, ?_⟩ <;> rw [mainFold_spec, mainFold_spec]
  · show runUnion cc splitChars maxLength check_complexity
        (pre ++ XlsxFile.unreadable :: post) = _
    rw [runUnion_append, runUnion_append]
    show _ ∪ ((∅ : Finset String) ∪ _) = _
    rw [Finset.empty_union]
  · show runFound cc splitChars maxLength check_complexity
        (pre ++ XlsxFile.unreadable :: post) = _
    rw [runFound_append, runFound_append]
    show _ + ((∅ : Finset String).card + _) = _
    rw [Finset.card_empty, Nat.zero_add]
  · show runSkips cc splitChars maxLength check_complexity
        (pre ++ XlsxFile.unreadable :: post) = _
    rw [runSkips_append, runSkips_append]
    show _ + (0 + _) = _
    rw [Nat.zero_add]
  · show (pre ++ XlsxFile.unreadable :: post).length = (pre ++ post).length + 1
    simp only [List.length_append, List.length_cons]
    omega

/-- C1: for every run on at least one discovered file, the written output is
exactly the union of the per-file unique-token sets, sorted strictly
increasingly (hence duplicate-free), each distinct token exactly once. -/
theorem c1_output_sorted_dedup (cc : CharClass) (splitChars : List Char)
    (maxLength : Nat) (check_complexity : Bool) (files : List XlsxFile)
    (h : files ≠ []) :
    ∃ out, mainOutput cc splitChars maxLength check_complexity files = some out ∧
      out.Sorted (· < ·) ∧ out.Nodup ∧
      ∀ w : String, w ∈ out ↔
        w ∈ runUnion cc splitChars maxLength check_complexity files := by
  refine ⟨(mainFold cc splitChars maxLength check_complexity files).all_words.sort (· ≤ ·),
    ?_, Finset.sort_sorted_lt _, Finset.sort_nodup _ _, ?_⟩
  · unfold mainOutput
    rw [if_neg (by simpa using h)]
  · intro w
    rw [Finset.mem_sort, mainFold_spec]

/-- Witness for `c1_output_sorted_dedup` on a run over one three-cell file. -/
theorem c1_output_sorted_dedup_witness :
    ∃ out, mainOutput asciiCC [] 32 false
        [XlsxFile.ok [some "b", some "a", some "a"]] = some out ∧
      out.Sorted (· < ·) ∧ out.Nodup ∧
      ∀ w : String, w ∈ out ↔
        w ∈ runUnion asciiCC [] 32 false [XlsxFile.ok [some "b", some "a", some "a"]] :=
  c1_output_sorted_dedup asciiCC [] 32 false
    [XlsxFile.ok [some "b", some "a", some "a"]] (by simp)

/-- Evaluation of one filter iteration once the emptiness and length checks
have passed. -/
theorem processWord_eval (cc : CharClass) (maxLength : Nat) (check_complexity : Bool)
    (st : FileState) (w : String)
    (h1 : ¬ (pyStrip cc w = "" ∨ (pyStrip cc w).length > maxLength)) :
    processWord cc maxLength check_complexity st w =
      (if check_complexity = true ∧
          is_complex_password cc (pyClean cc (pyStrip cc w)) = false then
        { st with skipped_words := st.skipped_words + 1 }
      else if pyClean cc (pyStrip cc w) ≠ "" ∧
          pyClean cc (pyStrip cc w) ∉ st.text_values then
        { st with
            text_values := insert (pyClean cc (pyStrip cc w)) st.text_values,
            word_count := st.word_count + 1 }
      else st) := by
  unfold processWord
  rw [if_neg h1]

/-- C6: with the complexity rule enabled, a candidate that has passed the
emptiness and length checks is treated exactly as without the rule (accepted)
when its cleaned token is complex, and is skipped otherwise; a token is
complex precisely when it contains at least one uppercase ASCII letter, one
lowercase ASCII letter, one digit and one character of the fixed special set;
on the spec's examples, `"Summer2024!"` is complex while `"summer2024"` and
`"SUMMER!"` are not. -/
theorem c6_complexity_rule (cc : CharClass) (maxLength : Nat) (st : FileState)
    (w : String)
    (h1 : pyStrip cc w ≠ "") (h2 : (pyStrip cc w).length ≤ maxLength) :
    (∀ v : String, is_complex_password cc v = true ↔
      ((∃ c ∈ v.data, 'A' ≤ c ∧ c ≤ 'Z') ∧ (∃ c ∈ v.data, 'a' ≤ c ∧ c ≤ 'z') ∧
       (∃ c ∈ v.data, cc.digit c = true) ∧ (∃ c ∈ v.data, c ∈ specialChars))) ∧
    (is_complex_password cc (pyClean cc (pyStrip cc w)) = true →
      processWord cc maxLength true st w = processWord cc maxLength false st w) ∧
    (is_complex_password cc (pyClean cc (pyStrip cc w)) = false →
      processWord cc maxLength true st w =
        { st with skipped_words := st.skipped_words + 1 }) ∧
    is_complex_password asciiCC "Summer2024!" = true ∧
    is_complex_password asciiCC "summer2024" = false ∧
    is_complex_password asciiCC "SUMMER!" = false := by
  have hlen : ¬ (pyStrip cc w = "" ∨ (pyStrip cc w).length > maxLength) :=
    not_or.mpr ⟨h1, not_lt.mpr h2⟩
  refine ⟨?_, ?_, ?_, by decide, by decide, by decide⟩
  · intro v
    unfold is_complex_password
    simp only [Bool.and_eq_true, List.any_eq_true, decide_eq_true_eq]
    tauto
  · intro hcpx
    have hn1 : ¬ (true = true ∧
        is_complex_password cc (pyClean cc (pyStrip cc w)) = false) :=
      fun hand => by rw [hcpx] at hand; exact absurd hand.2 (by simp)
    have hn2 : ¬ (false = true ∧
        is_complex_password cc (pyClean cc (pyStrip cc w)) = false) :=
      fun hand => absurd hand.1 (by simp)
    rw [processWord_eval cc maxLength true st w hlen,
      processWord_eval cc maxLength false st w hlen, if_neg hn1, if_neg hn2]
  · intro hcpx
    rw [processWord_eval cc maxLength true st w hlen, if_pos ⟨rfl, hcpx⟩]

/-- Witness for `c6_complexity_rule` at the candidate `"Summer2024!"`. -/
theorem c6_complexity_rule_witness :
    (∀ v : String, is_complex_password asciiCC v = true ↔
      ((∃ c ∈ v.data, 'A' ≤ c ∧ c ≤ 'Z') ∧ (∃ c ∈ v.data, 'a' ≤ c ∧ c ≤ 'z') ∧
       (∃ c ∈ v.data, asciiCC.digit c = true) ∧ (∃ c ∈ v.data, c ∈ specialChars))) ∧
    (is_complex_password asciiCC
        (pyClean asciiCC (pyStrip asciiCC "Summer2024!")) = true →
      processWord asciiCC 32 true initFileState "Summer2024!" =
        processWord asciiCC 32 false initFileState "Summer2024!") ∧
    (is_complex_password asciiCC
        (pyClean asciiCC (pyStrip asciiCC "Summer2024!")) = false →
      processWord asciiCC 32 true initFileState "Summer2024!" =
        { initFileState with skipped_words := initFileState.skipped_words + 1 }) ∧
    is_complex_password asciiCC "Summer2024!" = true ∧
    is_complex_password asciiCC "summer2024" = false ∧
    is_complex_password asciiCC "SUMMER!" = false :=
  c6_complexity_rule asciiCC 32 initFileState "Summer2024!" (by decide) (by decide)

/-- The split scan never returns an empty list of segments. -/
theorem splitAux_ne_nil (d : Char → Bool) (l : List Char) :
    ∀ (acc : List Char) (sk : Bool), splitAux d l acc sk ≠ [] := by
  induction l with
  | nil => intro acc sk; simp [splitAux]
  | cons a rest ih =>
    intro acc sk
    unfold splitAux
    by_cases h : d a = true
    · rw [if_pos h]
      cases sk with
      | false => rw [if_neg (by simp)]; exact List.cons_ne_nil _ _
      | true => rw [if_pos rfl]; exact ih [] true
    · rw [if_neg h]; exact ih (a :: acc) false

/-- No segment produced by the split scan contains a delimiter character
(given that the pending accumulator contains none). -/
theorem splitAux_no_delim (d : Char → Bool) (l : List Char) :
    ∀ (acc : List Char) (sk : Bool), (∀ c ∈ acc, d c = false) →
      ∀ x ∈ splitAux d l acc sk, ∀ c ∈ x, d c = false := by
  induction l with
  | nil =>
    intro acc sk hacc x hx c hc
    simp only [splitAux, List.mem_singleton] at hx
    subst hx
    exact hacc c (List.mem_reverse.mp hc)
  | cons a rest ih =>
    intro acc sk hacc x hx c hc
    unfold splitAux at hx
    by_cases h : d a = true
    · rw [if_pos h] at hx
      cases sk with
      | true =>
        rw [if_pos rfl] at hx
        exact ih [] true (by simp) x hx c hc
      | false =>
        rw [if_neg (by simp)] at hx
        rcases List.mem_cons.mp hx with rfl | hx'
        · exact hacc c (List.mem_reverse.mp hc)
        · exact ih [] true (by simp) x hx' c hc
    · rw [if_neg h] at hx
      refine ih (a :: acc) false ?_ x hx c hc
      intro c' hc'
      rcases List.mem_cons.mp hc' with rfl | h'
      · simpa using h
      · exact hacc c' h'

/-- Every segment except possibly the last is nonempty, once the scan is
past a leading position (skipping mode, or a nonempty accumulator). -/
theorem splitAux_dropLast_ne_nil (d : Char → Bool) (l : List Char) :
    ∀ (acc : List Char) (sk : Bool), (sk = true ∨ acc ≠ []) →
      ∀ x ∈ (splitAux d l acc sk).dropLast, x ≠ [] := by
  induction l with
  | nil => intro acc sk _ x hx; simp [splitAux] at hx
  | cons a rest ih =>
    intro acc sk hok x hx
    unfold splitAux at hx
    by_cases h : d a = true
    · rw [if_pos h] at hx
      cases sk with
      | true =>
        rw [if_pos rfl] at hx
        exact ih [] true (Or.inl rfl) x hx
      | false =>
        rw [if_neg (by simp)] at hx
        rcases List.exists_cons_of_ne_nil (splitAux_ne_nil d rest [] true) with ⟨y, t', ht⟩
        rw [ht] at hx
        rcases List.mem_cons.mp hx with rfl | hx'
        · rcases hok with h' | h'
          · exact absurd h' (by simp)
          · simpa using h'
        · exact ih [] true (Or.inl rfl) x (ht ▸ hx')
    · rw [if_neg h] at hx
      exact ih (a :: acc) false (Or.inr (List.cons_ne_nil a acc)) x hx

/-- Dropping the first element commutes with dropping the last. -/
theorem dropLast_drop_one {α : Type} (t : List α) :
    (t.drop 1).dropLast = t.dropLast.drop 1 := by
  cases t with
  | nil => rfl
  | cons a t' =>
    cases t' with
    | nil => rfl
    | cons b t'' => rfl

/-- Interior segments of the split scan (all but the first and the last) are
never empty: adjacent delimiters collapse to one split point. -/
theorem splitAux_interior_ne_nil (d : Char → Bool) (l : List Char) :
    ∀ x ∈ ((splitAux d l [] false).drop 1).dropLast, x ≠ [] := by
  cases l with
  | nil => intro x hx; simp [splitAux] at hx
  | cons a rest =>
    intro x hx
    unfold splitAux at hx
    by_cases h : d a = true
    · rw [if_pos h, if_neg (by simp)] at hx
      simp only [List.drop_succ_cons, List.drop_zero] at hx
      exact splitAux_dropLast_ne_nil d rest [] true (Or.inl rfl) x hx
    · rw [if_neg h] at hx
      rw [dropLast_drop_one] at hx
      exact splitAux_dropLast_ne_nil d rest [a] false
        (Or.inr (List.cons_ne_nil a [])) x (List.drop_subset 1 _ hx)

/-- A leading delimiter makes the scan emit a leading empty segment. -/
theorem splitAux_head_delim (d : Char → Bool) (a : Char) (t : List Char)
    (h : d a = true) :
    (splitAux d (a :: t) [] false).head? = some [] := by
  unfold splitAux
  rw [if_pos h, if_neg (by simp)]
  rfl

/-- A trailing delimiter makes the scan emit a trailing empty segment. -/
theorem splitAux_trailing_delim (d : Char → Bool) (c : Char) (h : d c = true)
    (l : List Char) :
    ∀ (acc : List Char) (sk : Bool), (splitAux d (l ++ [c]) acc sk).getLast? = some [] := by
  induction l with
  | nil =>
    intro acc sk
    show (splitAux d (c :: []) acc sk).getLast? = some []
    unfold splitAux
    rw [if_pos h]
    cases sk with
    | true => rw [if_pos rfl]; rfl
    | false => rw [if_neg (by simp)]; rfl
  | cons b l' ih =>
    intro acc sk
    show (splitAux d (b :: (l' ++ [c])) acc sk).getLast? = some []
    unfold splitAux
    by_cases hb : d b = true
    · rw [if_pos hb]
      cases sk with
      | true => rw [if_pos rfl]; exact ih [] true
      | false =>
        rw [if_neg (by simp)]
        rcases List.exists_cons_of_ne_nil (splitAux_ne_nil d (l' ++ [c]) [] true) with
          ⟨y, t', ht⟩
        rw [ht, List.getLast?_cons_cons, ← ht]
        exact ih [] true
    · rw [if_neg hb]
      exact ih (b :: acc) false

/-- Packing a character list into a string yields the empty string exactly
for the empty list. -/
theorem asString_eq_empty_iff (l : List Char) : l.asString = "" ↔ l = [] := by
  constructor
  · intro h
    have h2 : (l.asString).data = ("" : String).data := by rw [h]
    exact h2
  · rintro rfl; rfl

/-- C3 counterexample: with split character `;`, the cell texts `";abc"` and
`"abc;"` tokenize to sequences carrying a leading (resp. trailing) empty
candidate, contradicting the claim that leading or trailing delimiter runs
produce no empty candidate. -/
theorem c3_counterexample :
    tokenize [';'] ";abc" = ["", "abc"] ∧ tokenize [';'] "abc;" = ["abc", ""] :=
  ⟨by decide, by decide⟩

/-- C3 amended: with an empty split set the whole cleaned text is the single
candidate; with a nonempty split set, interior candidates are never empty
(adjacent delimiters collapse to a single split point) and no candidate
contains a delimiter character, but a leading delimiter run produces a
leading empty candidate and a trailing delimiter run a trailing one. -/
theorem c3_tokenizer (splitChars : List Char) (text : String)
    (hsc : splitChars ≠ []) :
    tokenize [] text = [text] ∧
    (∀ x ∈ ((tokenize splitChars text).drop 1).dropLast, x ≠ "") ∧
    (∀ x ∈ tokenize splitChars text, ∀ c ∈ x.data, splitChars.contains c = false) ∧
    (∀ c t, splitChars.contains c = true → text.data = c :: t →
      (tokenize splitChars text).head? = some "") ∧
    (∀ l c, splitChars.contains c = true → text.data = l ++ [c] →
      (tokenize splitChars text).getLast? = some "") := by
  have htok : tokenize splitChars text =
      (splitAux (fun c => splitChars.contains c) text.data [] false).map List.asString := by
    unfold tokenize
    rw [if_neg (fun he => hsc (List.isEmpty_iff.mp he))]
    rfl
  refine ⟨rfl, ?_, ?_, ?_, ?_⟩
  · intro x hx
    rw [htok, ← List.map_drop, ← List.map_dropLast] at hx
    rcases List.mem_map.mp hx with ⟨y, hy, rfl⟩
    intro hxe
    exact splitAux_interior_ne_nil (fun c => splitChars.contains c) text.data y hy
      ((asString_eq_empty_iff y).mp hxe)
  · intro x hx c hc
    rw [htok] at hx
    rcases List.mem_map.mp hx with ⟨y, hy, rfl⟩
    exact splitAux_no_delim _ text.data [] false (by simp) y hy c hc
  · intro c t hc hdata
    rw [htok, List.head?_map, hdata, splitAux_head_delim _ c t hc]
    rfl
  · intro l c hc hdata
    rw [htok, List.getLast?_map, hdata, splitAux_trailing_delim _ c hc l [] false]
    rfl

/-- Witness for `c3_tokenizer` at split set `{;}` and text `";ab;"`. -/
theorem c3_tokenizer_witness :
    tokenize [] ";ab;" = [";ab;"] ∧
    (∀ x ∈ ((tokenize [';'] ";ab;").drop 1).dropLast, x ≠ "") ∧
    (∀ x ∈ tokenize [';'] ";ab;", ∀ c ∈ x.data, [';'].contains c = false) ∧
    (∀ c t, [';'].contains c = true → (";ab;" : String).data = c :: t →
      (tokenize [';'] ";ab;").head? = some "") ∧
    (∀ l c, [';'].contains c = true → (";ab;" : String).data = l ++ [c] →
      (tokenize [';'] ";ab;").getLast? = some "") :=
  c3_tokenizer [';'] ";ab;" (by simp)

/-- Sanity check of the `re.split` model: delimiter runs collapse and the
boundary empties appear exactly as CPython produces them. -/
theorem reSplit_boundary_check :
    reSplit (fun c => c == ';') ";a;;b;" = ["", "a", "b", ""] := by decide

/-- Sanity check matching the spec's split-semantics test case. -/
theorem tokenize_split_check :
    tokenize [' ', ';'] "alpha  beta;;gamma" = ["alpha", "beta", "gamma"] := by
  decide

/-- Sanity check matching the spec's no-split test case: one candidate whose
cleaning removes the internal spaces. -/
theorem tokenize_no_split_check :
    tokenize [] "Pass Word 123!" = ["Pass Word 123!"] ∧
    pyClean asciiCC "Pass Word 123!" = "PassWord123!" := by
  exact ⟨by decide, by decide⟩

end XLSXtract
